import Mathlib

/-!
Verification development for the EasyTerm terminal front end
(src/easyterm/easyterm.py).

The Python code is shallowly embedded: Python strings are Lean `String`s
(manipulated through their underlying `List Char`), Python lists are Lean
lists, `Optional[T]` parameters are `Option T`, and the character-level
`str.split` / `str.strip` / `str.join` primitives are defined below with
Python's semantics.  Configuration resolution (`MainWindow.__init__`),
command-line option parsing (`EasyTerm.do_command_line`), the terminal
color selection (`Terminal.__init__`) and the title handler
(`MainWindow.update_title`) are translated directly from the source.
-/

namespace EasyTerm

/-- The character class stripped by Python's `str.strip()` with no
argument: ASCII whitespace plus the Unicode whitespace code points. -/
def pyIsSpace (c : Char) : Bool :=
  c = ' ' || c = '\t' || c = '\n' || c = '\r' || c = '\x0b' || c = '\x0c' ||
  c = '\x1c' || c = '\x1d' || c = '\x1e' || c = '\x1f' || c = '\x85' ||
  c = ' ' || c = ' ' || c = ' ' || c = ' ' || c = ' ' ||
  c = ' ' || c = ' ' || c = ' ' || c = ' ' || c = ' ' ||
  c = ' ' || c = ' ' || c = ' ' || c = ' ' || c = ' ' ||
  c = ' ' || c = ' ' || c = '　'

/-- Python `str.strip()` on the character list: drop whitespace from the
front, then from the back. -/
def stripL (l : List Char) : List Char :=
  ((l.dropWhile pyIsSpace).reverse.dropWhile pyIsSpace).reverse

/-- Python `str.strip()`. -/
def pyStrip (s : String) : String := ⟨stripL s.data⟩

/-- Python `str.split(sep)` for a one-character separator `sep`:
splits at every occurrence, keeping empty fields, and yields `[[]]`
on the empty string. -/
def splitCh (sep : Char) : List Char → List (List Char)
  | [] => [[]]
  | c :: cs =>
    if c = sep then [] :: splitCh sep cs
    else
      match splitCh sep cs with
      | [] => [[c]]
      | t :: ts => (c :: t) :: ts

/-- Python `str.split(sep)` at the `String` level. -/
def pySplit (sep : Char) (s : String) : List String :=
  (splitCh sep s.data).map String.mk

/-- Python `sep.join(parts)` for a one-character separator, on
character lists. -/
def joinCh (sep : Char) : List (List Char) → List Char
  | [] => []
  | [x] => x
  | x :: xs => x ++ sep :: joinCh sep xs

/-- Python `sep.join(parts)` at the `String` level. -/
def joinWith (sep : Char) (l : List String) : String :=
  ⟨joinCh sep (l.map String.data)⟩

/-- `CONF_NAME` (easyterm.py line 15): the application's fixed name. -/
def CONF_NAME : String := "EasyTerm"

/-- `CONF_DEF_CMD` (easyterm.py line 17): the default command, a
singleton naming the default shell. -/
def CONF_DEF_CMD : List String := ["/bin/bash"]

/-- `Gdk.RGBA`: four components, each in `[0, 1]`, represented exactly
as rationals. -/
structure RGBA where
  red : ℚ
  green : ℚ
  blue : ℚ
  alpha : ℚ
deriving DecidableEq

/-- `CONF_FG` (easyterm.py lines 19-23). -/
def CONF_FG : RGBA := ⟨8/10, 8/10, 8/10, 1⟩

/-- `CONF_BG` (easyterm.py lines 25-29). -/
def CONF_BG : RGBA := ⟨1/10, 1/10, 1/10, 1⟩

/-- A zero-initialized `Gdk.RGBA()` as constructed at easyterm.py
lines 446 and 448 before `parse` is called on it. -/
def rgbaInit : RGBA := ⟨0, 0, 0, 0⟩

/-- One quick-action record, as built at easyterm.py lines 432-438. -/
structure ActionSpec where
  tooltip : String
  icon : String
  command : String
deriving DecidableEq

/-- The `for spec in raw.split(",")` loop body of
`EasyTerm.do_command_line` (easyterm.py lines 420-438), accumulating
into `actions` exactly as the Python loop does. -/
def parseActionsLoop : List (List Char) → List ActionSpec → List ActionSpec
  | [], actions => actions
  | raw :: rest, actions =>
    let spec := stripL raw
    if spec = [] then
      parseActionsLoop rest actions
    else
      match splitCh ':' spec with
      | [tooltip, icon, cmd] =>
        parseActionsLoop rest (actions ++ [⟨⟨tooltip⟩, ⟨icon⟩, ⟨cmd⟩⟩])
      | [tooltip, cmd] =>
        parseActionsLoop rest (actions ++ [⟨⟨tooltip⟩, "system-run-symbolic", ⟨cmd⟩⟩])
      | _ => parseActionsLoop rest actions

/-- The action-spec parser of `EasyTerm.do_command_line`
(easyterm.py lines 418-438). -/
def parseActions (raw : String) : List ActionSpec :=
  parseActionsLoop (splitCh ',' raw.data) []

/-- Classification of a single already-trimmed descriptor, following the
spec's words (§4.2): split on `:`; 3 fields give `(tooltip, icon,
command)`, 2 fields give `(tooltip, command)` with the default sentinel
icon, any other field count or an empty descriptor is discarded. -/
def classifyDescriptor (d : List Char) : Option ActionSpec :=
  if d = [] then none
  else
    match splitCh ':' d with
    | [t, i, c] => some ⟨⟨t⟩, ⟨i⟩, ⟨c⟩⟩
    | [t, c] => some ⟨⟨t⟩, "system-run-symbolic", ⟨c⟩⟩
    | _ => none

/-- The action-spec parser as the spec states it (§4.2): split the
input on `,`, trim each descriptor, classify it, and keep the
classified descriptors in order. -/
def parseActionsSpec (raw : String) : List ActionSpec :=
  ((splitCh ',' raw.data).map stripL).filterMap classifyDescriptor

/-- The `--env` branch of `EasyTerm.do_command_line` (easyterm.py
lines 414-416): `env_str.split(" ") if env_str else []`. -/
def parseEnv (s : String) : List String :=
  if s = "" then [] else pySplit ' ' s

/-- Modelled from the spec: ColorParser (§4.1).  The color grammar is
implemented by the host platform's `Gdk.RGBA.parse`, which is not part
of this repository; per the spec it accepts the hex forms `#RRGGBB` and
`#RGB` (components normalized into `[0, 1]`) and rejects anything
matching no recognized grammar. -/
def hexVal (c : Char) : Option ℕ :=
  if '0' ≤ c ∧ c ≤ '9' then some (c.toNat - '0'.toNat)
  else if 'a' ≤ c ∧ c ≤ 'f' then some (c.toNat - 'a'.toNat + 10)
  else if 'A' ≤ c ∧ c ≤ 'F' then some (c.toNat - 'A'.toNat + 10)
  else none

/-- Modelled from the spec: ColorParser (§4.1), hex forms `#RRGGBB` and
`#RGB`; `none` is the `ColorParseError` outcome. -/
def colorParse (s : String) : Option RGBA :=
  match s.data with
  | ['#', r1, r2, g1, g2, b1, b2] =>
    match hexVal r1, hexVal r2, hexVal g1, hexVal g2, hexVal b1, hexVal b2 with
    | some a, some b, some c, some d, some e, some f =>
      some ⟨mkRat (16 * a + b) 255, mkRat (16 * c + d) 255, mkRat (16 * e + f) 255, 1⟩
    | _, _, _, _, _, _ => none
  | ['#', r, g, b] =>
    match hexVal r, hexVal g, hexVal b with
    | some a, some c, some e =>
      some ⟨mkRat (17 * a) 255, mkRat (17 * c) 255, mkRat (17 * e) 255, 1⟩
    | _, _, _ => none
  | _ => none

/-- `Gdk.RGBA.parse` as used at easyterm.py lines 447 and 449: on
success the color is overwritten with the parsed value, on failure the
boolean result is ignored and the color keeps its previous value. -/
def gdkParseInto (c : RGBA) (s : String) : RGBA :=
  (colorParse s).getD c

/-- The `--palette` branch of `EasyTerm.do_command_line` (easyterm.py
lines 443-450): split the value on spaces; with at least two tokens,
parse the first and second into fresh zero-initialized colors and store
the two-element list; otherwise leave `palette` as `[]`. -/
def parsePaletteOption (s : String) : List RGBA :=
  match pySplit ' ' s with
  | t0 :: t1 :: _ => [gdkParseInto rgbaInit t0, gdkParseInto rgbaInit t1]
  | _ => []

/-- The color selection of `Terminal.__init__` (easyterm.py lines
63-72): built-in defaults when `palette` is `None` or shorter than 2,
else `(palette[0], palette[1])` as `(foreground, background)`. -/
def terminalColors : Option (List RGBA) → RGBA × RGBA
  | some (f :: b :: _) => (f, b)
  | _ => (CONF_FG, CONF_BG)

/-- The keyword arguments of `MainWindow.__init__` (easyterm.py lines
193-204) with their Python default values. -/
structure WindowArgs where
  cwd : String := ""
  command : Option (List String) := none
  env : Option (List String) := none
  actions : Option (List ActionSpec) := none
  dark_theme : Bool := true
  palette : Option (List RGBA) := none
deriving DecidableEq

/-- The fully resolved session configuration handed to `spawn_async`
and the UI builders by `MainWindow.__init__`. -/
structure SessionConfig where
  cwd : String
  command : List String
  env : List String
  actions : List ActionSpec
  dark_theme : Bool
  palette : List RGBA
deriving DecidableEq

/-- The defaulting block of `MainWindow.__init__` (easyterm.py lines
226-238).  `CONF_DEF_CWD = os.getcwd()` is the process's startup
directory, passed here as the parameter `startupDir`.  `if not command`
treats both `None` and the empty list as absent; `cwd == ""` likewise
falls back to the startup directory. -/
def resolve (startupDir : String) (a : WindowArgs) : SessionConfig where
  cwd := if a.cwd = "" then startupDir else a.cwd
  command :=
    match a.command with
    | none => CONF_DEF_CMD
    | some [] => CONF_DEF_CMD
    | some cmd => cmd
  env := a.env.getD []
  actions := a.actions.getD []
  dark_theme := a.dark_theme
  palette := a.palette.getD []

/-- The state observable through the headerbar: the terminal widget's
currently reported window title (`None` when the child never set one)
and the displayed headerbar label. -/
structure TitleState where
  windowTitle : Option String
  displayed : String
deriving DecidableEq

/-- `MainWindow.update_title` (easyterm.py lines 256-259):
`terminal.get_window_title() or CONF_NAME` — Python `or` collapses both
`None` and the empty string to the application name. -/
def update_title (windowTitle : Option String) : String :=
  match windowTitle with
  | none => CONF_NAME
  | some t => if t = "" then CONF_NAME else t

/-- Initial state: the headerbar label is created with `CONF_NAME`
(easyterm.py line 162) and the widget has no window title yet. -/
def initTitleState : TitleState := ⟨none, CONF_NAME⟩

/-- The `window-title-changed` signal (easyterm.py line 253): the
widget's title has been set to the new value and `update_title` runs. -/
def onTitleChanged (_st : TitleState) (newTitle : String) : TitleState :=
  ⟨some newTitle, update_title (some newTitle)⟩

/-- The `child-exited` signal (easyterm.py line 254): the same
`update_title` handler runs; nothing in the code clears the widget's
reported window title, and the exit code is not read. -/
def onChildExited (st : TitleState) (_exitCode : ℤ) : TitleState :=
  ⟨st.windowTitle, update_title st.windowTitle⟩

/-- A character list is clean when stripping would change nothing:
no leading and no trailing whitespace. -/
def CleanL (l : List Char) : Prop :=
  l.dropWhile pyIsSpace = l ∧ l.reverse.dropWhile pyIsSpace = l.reverse

/-- Every action produced by the parser has this shape: its fields
contain no `:` and no `,` (they came from splitting on those
characters), and its 3-field serialization carries no surrounding
whitespace (the descriptor was stripped before splitting). -/
def GoodSpec (a : ActionSpec) : Prop :=
  ':' ∉ a.tooltip.data ∧ ':' ∉ a.icon.data ∧ ':' ∉ a.command.data ∧
  ',' ∉ a.tooltip.data ∧ ',' ∉ a.icon.data ∧ ',' ∉ a.command.data ∧
  CleanL (a.tooltip.data ++ ':' :: (a.icon.data ++ ':' :: a.command.data))

/-- Re-serialization of one parsed action to the 3-field form of the
spec's idempotence property (§8.2). -/
def serializeSpec (a : ActionSpec) : String :=
  a.tooltip ++ ":" ++ a.icon ++ ":" ++ a.command

/-- Re-serialization of a parsed action list, joined with `,` (§8.2). -/
def serializeActions (l : List ActionSpec) : String :=
  joinWith ',' (l.map serializeSpec)

/-! ### Lemmas about the string primitives -/

theorem mk_data (s : String) : String.mk s.data = s := rfl

theorem splitCh_ne_nil (sep : Char) (l : List Char) : splitCh sep l ≠ [] := by
  induction l with
  | nil => simp [splitCh]
  | cons c cs ih =>
    simp only [splitCh]
    split
    · simp
    · cases h : splitCh sep cs with
      | nil => simp
      | cons t ts => simp

theorem splitCh_exists (sep : Char) (l : List Char) :
    ∃ t ts, splitCh sep l = t :: ts := by
  cases h : splitCh sep l with
  | nil => exact absurd h (splitCh_ne_nil sep l)
  | cons t ts => exact ⟨t, ts, rfl⟩

theorem splitCh_cons_sep (sep : Char) (l : List Char) :
    splitCh sep (sep :: l) = [] :: splitCh sep l := by
  simp [splitCh]

theorem splitCh_cons_ne (sep c : Char) (cs t : List Char) (ts : List (List Char))
    (hc : c ≠ sep) (h : splitCh sep cs = t :: ts) :
    splitCh sep (c :: cs) = (c :: t) :: ts := by
  simp [splitCh, hc, h]

theorem splitCh_of_not_mem (sep : Char) (l : List Char) (h : sep ∉ l) :
    splitCh sep l = [l] := by
  induction l with
  | nil => rfl
  | cons c cs ih =>
    have hc : c ≠ sep := fun he => h (he ▸ List.mem_cons_self c cs)
    have hcs : sep ∉ cs := fun hm => h (List.mem_cons_of_mem _ hm)
    exact splitCh_cons_ne sep c cs cs [] hc (ih hcs)

theorem splitCh_append (sep : Char) (xs ys : List Char) (h : sep ∉ xs) :
    splitCh sep (xs ++ sep :: ys) = xs :: splitCh sep ys := by
  induction xs with
  | nil => simpa using splitCh_cons_sep sep ys
  | cons c cs ih =>
    have hc : c ≠ sep := fun he => h (he ▸ List.mem_cons_self c cs)
    have hcs : sep ∉ cs := fun hm => h (List.mem_cons_of_mem _ hm)
    simpa using splitCh_cons_ne sep c (cs ++ sep :: ys) cs (splitCh sep ys) hc (ih hcs)

theorem not_mem_of_mem_splitCh (sep : Char) (l x : List Char)
    (hx : x ∈ splitCh sep l) : sep ∉ x := by
  induction l generalizing x with
  | nil =>
    simp only [splitCh, List.mem_singleton] at hx
    simp [hx]
  | cons c cs ih =>
    by_cases hc : c = sep
    · subst hc
      rw [splitCh_cons_sep] at hx
      rcases List.mem_cons.mp hx with h | h
      · simp [h]
      · exact ih x h
    · obtain ⟨t, ts, hts⟩ := splitCh_exists sep cs
      rw [splitCh_cons_ne sep c cs t ts hc hts] at hx
      rcases List.mem_cons.mp hx with h | h
      · subst h
        intro hmem
        rcases List.mem_cons.mp hmem with h | h
        · exact hc h.symm
        · exact ih t (hts ▸ List.mem_cons_self t ts) h
      · exact ih x (hts ▸ List.mem_cons_of_mem t h)

theorem mem_of_mem_splitCh (sep : Char) (l x : List Char) (a : Char)
    (hx : x ∈ splitCh sep l) (ha : a ∈ x) : a ∈ l := by
  induction l generalizing x with
  | nil =>
    simp only [splitCh, List.mem_singleton] at hx
    subst hx
    simp at ha
  | cons c cs ih =>
    by_cases hc : c = sep
    · subst hc
      rw [splitCh_cons_sep] at hx
      rcases List.mem_cons.mp hx with h | h
      · subst h; simp at ha
      · exact List.mem_cons_of_mem _ (ih x h ha)
    · obtain ⟨t, ts, hts⟩ := splitCh_exists sep cs
      rw [splitCh_cons_ne sep c cs t ts hc hts] at hx
      rcases List.mem_cons.mp hx with h | h
      · subst h
        rcases List.mem_cons.mp ha with h | h
        · exact h ▸ List.mem_cons_self c cs
        · exact List.mem_cons_of_mem _ (ih t (hts ▸ List.mem_cons_self t ts) h)
      · exact List.mem_cons_of_mem _ (ih x (hts ▸ List.mem_cons_of_mem t h) ha)

theorem joinCh_cons_cons (sep : Char) (x y : List Char) (ys : List (List Char)) :
    joinCh sep (x :: y :: ys) = x ++ sep :: joinCh sep (y :: ys) := rfl

theorem joinCh_splitCh (sep : Char) (l : List Char) :
    joinCh sep (splitCh sep l) = l := by
  induction l with
  | nil => rfl
  | cons c cs ih =>
    by_cases hc : c = sep
    · rw [hc]
      obtain ⟨t, ts, hts⟩ := splitCh_exists sep cs
      rw [splitCh_cons_sep, hts]
      rw [hts] at ih
      rw [joinCh_cons_cons]
      simpa using ih
    · obtain ⟨t, ts, hts⟩ := splitCh_exists sep cs
      rw [splitCh_cons_ne sep c cs t ts hc hts]
      rw [hts] at ih
      cases ts with
      | nil => simpa [joinCh] using ih
      | cons u us =>
        rw [joinCh_cons_cons] at ih ⊢
        simpa using ih

theorem splitCh_joinCh (sep : Char) (parts : List (List Char))
    (hne : parts ≠ []) (hfree : ∀ x ∈ parts, sep ∉ x) :
    splitCh sep (joinCh sep parts) = parts := by
  induction parts with
  | nil => exact absurd rfl hne
  | cons x xs ih =>
    cases xs with
    | nil => simpa [joinCh] using splitCh_of_not_mem sep x (hfree x (List.mem_cons_self x []))
    | cons y ys =>
      rw [joinCh_cons_cons,
        splitCh_append sep x _ (hfree x (List.mem_cons_self x (y :: ys))),
        ih (List.cons_ne_nil y ys) (fun z hz => hfree z (List.mem_cons_of_mem x hz))]

theorem splitCh_append_sep (sep : Char) (l : List Char) :
    splitCh sep (l ++ [sep]) = splitCh sep l ++ [[]] := by
  induction l with
  | nil => simp [splitCh]
  | cons c cs ih =>
    by_cases hc : c = sep
    · subst hc
      rw [List.cons_append, splitCh_cons_sep, splitCh_cons_sep, ih, List.cons_append]
    · obtain ⟨t, ts, hts⟩ := splitCh_exists sep cs
      have h2 : splitCh sep (cs ++ [sep]) = t :: (ts ++ [[]]) := by
        rw [ih, hts, List.cons_append]
      rw [List.cons_append, splitCh_cons_ne sep c _ t (ts ++ [[]]) hc h2,
        splitCh_cons_ne sep c cs t ts hc hts, List.cons_append]

/-! ### Lemmas about `dropWhile` and stripping -/

theorem dropWhile_idem (p : Char → Bool) (l : List Char) :
    (l.dropWhile p).dropWhile p = l.dropWhile p := by
  induction l with
  | nil => rfl
  | cons c cs ih =>
    by_cases h : p c
    · simp [List.dropWhile_cons, h, ih]
    · simp [List.dropWhile_cons, h]

theorem dropWhile_append_cons (p : Char → Bool) (xs ys : List Char) (m : Char)
    (hm : p m = false) :
    (xs ++ m :: ys).dropWhile p = xs.dropWhile p ++ m :: ys := by
  induction xs with
  | nil => simp [List.dropWhile_cons, hm]
  | cons c cs ih =>
    by_cases h : p c
    · simp [List.dropWhile_cons, h, ih]
    · simp [List.dropWhile_cons, h]

theorem stripL_of_cleanL (l : List Char) (h : CleanL l) : stripL l = l := by
  unfold stripL
  rw [h.1, h.2, List.reverse_reverse]

theorem dropWhile_eq_self_of_head (p : Char → Bool) (c : Char) (cs : List Char)
    (hc : p c = false) : (c :: cs).dropWhile p = c :: cs := by
  simp [List.dropWhile_cons, hc]

theorem head_false_of_dropWhile_eq_self (p : Char → Bool) (c : Char) (cs : List Char)
    (h : (c :: cs).dropWhile p = c :: cs) : p c = false := by
  by_contra hpc
  rw [List.dropWhile_cons_of_pos (by simpa using hpc)] at h
  have hlen : (cs.dropWhile p).length ≤ cs.length :=
    (List.dropWhile_sublist (p := p) (l := cs)).length_le
  rw [h] at hlen
  simp at hlen

theorem cleanL_stripL (l : List Char) : CleanL (stripL l) := by
  unfold CleanL stripL
  set p := pyIsSpace with hp
  set a := l.dropWhile p with ha
  set b := a.reverse.dropWhile p with hb
  constructor
  · -- no leading whitespace: `b.reverse` is a prefix of `a`, whose head
    -- already fails `p`.
    have hsplit : a.reverse.takeWhile p ++ b = a.reverse := by
      rw [hb]; exact List.takeWhile_append_dropWhile p a.reverse
    have ha2 : a = b.reverse ++ (a.reverse.takeWhile p).reverse := by
      have := congrArg List.reverse hsplit
      simp only [List.reverse_append, List.reverse_reverse] at this
      exact this.symm
    have haa : a.dropWhile p = a := by
      rw [ha]; exact dropWhile_idem p l
    cases hbv : b.reverse with
    | nil => simp
    | cons c bs =>
      have hfalse : p c = false := by
        rw [ha2, hbv, List.cons_append] at haa
        exact head_false_of_dropWhile_eq_self p c _ haa
      exact dropWhile_eq_self_of_head p c bs hfalse
  · rw [List.reverse_reverse, hb]
    exact dropWhile_idem p a.reverse

theorem mem_stripL (l : List Char) (a : Char) (h : a ∈ stripL l) : a ∈ l := by
  unfold stripL at h
  rw [List.mem_reverse] at h
  have h1 := (List.dropWhile_sublist (p := pyIsSpace)
    (l := (l.dropWhile pyIsSpace).reverse)).mem h
  rw [List.mem_reverse] at h1
  exact (List.dropWhile_sublist (p := pyIsSpace) (l := l)).mem h1

/-! ### The action parser loop computes the spec-level filterMap -/

theorem parseActionsLoop_cons (raw : List Char) (rest : List (List Char))
    (acc : List ActionSpec) :
    parseActionsLoop (raw :: rest) acc =
      if stripL raw = [] then parseActionsLoop rest acc
      else
        match splitCh ':' (stripL raw) with
        | [tooltip, icon, cmd] =>
          parseActionsLoop rest (acc ++ [⟨⟨tooltip⟩, ⟨icon⟩, ⟨cmd⟩⟩])
        | [tooltip, cmd] =>
          parseActionsLoop rest (acc ++ [⟨⟨tooltip⟩, "system-run-symbolic", ⟨cmd⟩⟩])
        | _ => parseActionsLoop rest acc := rfl

theorem parseActionsLoop_eq (l : List (List Char)) (acc : List ActionSpec) :
    parseActionsLoop l acc = acc ++ (l.map stripL).filterMap classifyDescriptor := by
  induction l generalizing acc with
  | nil => simp [parseActionsLoop]
  | cons raw rest ih =>
    rw [parseActionsLoop_cons, List.map_cons, List.filterMap_cons]
    by_cases h : stripL raw = []
    · rw [if_pos h, ih]
      simp [classifyDescriptor, h]
    · rw [if_neg h]
      rcases hs : splitCh ':' (stripL raw) with _ | ⟨t, _ | ⟨i, _ | ⟨c, _ | ⟨d, ds⟩⟩⟩⟩ <;>
        simp [hs, classifyDescriptor, h, ih, List.append_assoc]

theorem parseActions_eq_spec (raw : String) :
    parseActions raw = parseActionsSpec raw := by
  unfold parseActions parseActionsSpec
  rw [parseActionsLoop_eq]
  simp

/-! ### Structural facts about parsed actions, for the round-trip -/

theorem serializeSpec_data (a : ActionSpec) :
    (serializeSpec a).data =
      a.tooltip.data ++ ':' :: (a.icon.data ++ ':' :: a.command.data) := by
  simp [serializeSpec, String.data_append]

theorem pyIsSpace_colon : pyIsSpace ':' = false := rfl

/-- Inserting a further `:`-separated field in the middle keeps a clean
two-field join clean: surrounding whitespace depends only on the ends. -/
theorem cleanL_insert_mid (t mid c : List Char) (h : CleanL (t ++ ':' :: c)) :
    CleanL (t ++ ':' :: (mid ++ ':' :: c)) := by
  obtain ⟨h1, h2⟩ := h
  constructor
  · rw [dropWhile_append_cons pyIsSpace t c ':' pyIsSpace_colon] at h1
    have ht : t.dropWhile pyIsSpace = t := List.append_cancel_right h1
    rw [dropWhile_append_cons pyIsSpace t (mid ++ ':' :: c) ':' pyIsSpace_colon, ht]
  · have hrev : (t ++ ':' :: c).reverse = c.reverse ++ ':' :: t.reverse := by
      simp
    rw [hrev, dropWhile_append_cons pyIsSpace c.reverse t.reverse ':' pyIsSpace_colon] at h2
    have hc : c.reverse.dropWhile pyIsSpace = c.reverse := List.append_cancel_right h2
    have hrev2 : (t ++ ':' :: (mid ++ ':' :: c)).reverse =
        c.reverse ++ ':' :: (mid.reverse ++ ':' :: t.reverse) := by
      simp
    rw [hrev2,
      dropWhile_append_cons pyIsSpace c.reverse (mid.reverse ++ ':' :: t.reverse) ':'
        pyIsSpace_colon, hc]

theorem goodSpec_of_mem_parse (raw : String) (a : ActionSpec)
    (ha : a ∈ parseActions raw) : GoodSpec a := by
  rw [parseActions_eq_spec] at ha
  unfold parseActionsSpec at ha
  obtain ⟨d, hd, hcd⟩ := List.mem_filterMap.mp ha
  obtain ⟨e, he, rfl⟩ := List.mem_map.mp hd
  have hclean : CleanL (stripL e) := cleanL_stripL e
  have hcomma : ',' ∉ stripL e := fun hm =>
    not_mem_of_mem_splitCh ',' raw.data e he (mem_stripL e ',' hm)
  by_cases hne : stripL e = []
  · simp [classifyDescriptor, hne] at hcd
  · rcases hs : splitCh ':' (stripL e) with _ | ⟨t, _ | ⟨i, _ | ⟨c, _ | ⟨x, xs⟩⟩⟩⟩ <;>
      simp only [classifyDescriptor, if_neg hne, hs, Option.some.injEq,
        reduceCtorEq] at hcd
    · -- two fields: `[t, i]` with `i` the command
      subst hcd
      have hjoin : stripL e = t ++ ':' :: i := by
        have := joinCh_splitCh ':' (stripL e)
        rw [hs] at this
        exact this.symm
      have hmemt : t ∈ splitCh ':' (stripL e) := by rw [hs]; simp
      have hmemi : i ∈ splitCh ':' (stripL e) := by rw [hs]; simp
      refine ⟨not_mem_of_mem_splitCh ':' _ t hmemt,
        (by decide : ':' ∉ "system-run-symbolic".data),
        not_mem_of_mem_splitCh ':' _ i hmemi,
        fun hm => hcomma (hjoin ▸ (by simp [hm] : ',' ∈ t ++ ':' :: i)),
        (by decide : ',' ∉ "system-run-symbolic".data),
        fun hm => hcomma (hjoin ▸ (by simp [hm] : ',' ∈ t ++ ':' :: i)), ?_⟩
      have : CleanL (t ++ ':' :: i) := hjoin ▸ hclean
      exact cleanL_insert_mid t ("system-run-symbolic".data) i this
    · -- three fields: `[t, i, c]`
      subst hcd
      have hjoin : stripL e = t ++ ':' :: (i ++ ':' :: c) := by
        have := joinCh_splitCh ':' (stripL e)
        rw [hs] at this
        exact this.symm
      have hmemt : t ∈ splitCh ':' (stripL e) := by rw [hs]; simp
      have hmemi : i ∈ splitCh ':' (stripL e) := by rw [hs]; simp
      have hmemc : c ∈ splitCh ':' (stripL e) := by rw [hs]; simp
      exact ⟨not_mem_of_mem_splitCh ':' _ t hmemt,
        not_mem_of_mem_splitCh ':' _ i hmemi,
        not_mem_of_mem_splitCh ':' _ c hmemc,
        fun hm => hcomma (hjoin ▸ (by simp [hm] : ',' ∈ t ++ ':' :: (i ++ ':' :: c))),
        fun hm => hcomma (hjoin ▸ (by simp [hm] : ',' ∈ t ++ ':' :: (i ++ ':' :: c))),
        fun hm => hcomma (hjoin ▸ (by simp [hm] : ',' ∈ t ++ ':' :: (i ++ ':' :: c))),
        hjoin ▸ hclean⟩

theorem serializeSpec_ne_nil (a : ActionSpec) : (serializeSpec a).data ≠ [] := by
  rw [serializeSpec_data]
  intro h
  rcases List.append_eq_nil.mp h with ⟨_, h2⟩
  exact List.cons_ne_nil _ _ h2

theorem serializeSpec_comma_free (a : ActionSpec) (h : GoodSpec a) :
    ',' ∉ (serializeSpec a).data := by
  obtain ⟨_, _, _, h4, h5, h6, _⟩ := h
  rw [serializeSpec_data]
  intro hm
  simp only [List.mem_append, List.mem_cons] at hm
  rcases hm with hm | hm | hm | hm | hm
  · exact h4 hm
  · exact absurd hm (by decide)
  · exact h5 hm
  · exact absurd hm (by decide)
  · exact h6 hm

theorem classify_serializeSpec (a : ActionSpec) (h : GoodSpec a) :
    stripL (serializeSpec a).data = (serializeSpec a).data ∧
    classifyDescriptor (serializeSpec a).data = some a := by
  obtain ⟨h1, h2, h3, _, _, _, hclean⟩ := h
  constructor
  · rw [serializeSpec_data]
    exact stripL_of_cleanL _ hclean
  · have hsplit : splitCh ':' (serializeSpec a).data =
        [a.tooltip.data, a.icon.data, a.command.data] := by
      rw [serializeSpec_data, splitCh_append ':' _ _ h1, splitCh_append ':' _ _ h2,
        splitCh_of_not_mem ':' _ h3]
    rw [classifyDescriptor, if_neg (serializeSpec_ne_nil a), hsplit]

theorem filterMap_classify_strip (l : List ActionSpec)
    (h : ∀ x ∈ l, GoodSpec x) :
    ((l.map (fun x => (serializeSpec x).data)).map stripL).filterMap
      classifyDescriptor = l := by
  induction l with
  | nil => rfl
  | cons x xs ih =>
    obtain ⟨hstrip, hcls⟩ := classify_serializeSpec x (h x (List.mem_cons_self x xs))
    simp only [List.map_cons, List.filterMap_cons, hstrip, hcls]
    rw [ih fun y hy => h y (List.mem_cons_of_mem x hy)]

theorem serializeActions_data (l : List ActionSpec) :
    (serializeActions l).data = joinCh ',' (l.map fun x => (serializeSpec x).data) := by
  unfold serializeActions joinWith
  simp only [List.map_map]
  rfl

theorem parse_serialize_of_good (l : List ActionSpec) (hg : ∀ a ∈ l, GoodSpec a) :
    parseActions (serializeActions l) = l := by
  cases l with
  | nil => rfl
  | cons a as =>
    rw [parseActions_eq_spec]
    unfold parseActionsSpec
    rw [serializeActions_data,
      splitCh_joinCh ',' _ (by simp) (by
        intro x hx
        obtain ⟨y, hy, rfl⟩ := List.mem_map.mp hx
        exact serializeSpec_comma_free y (hg y hy))]
    exact filterMap_classify_strip (a :: as) hg

/-! ### Lemmas about the `--env` split -/

theorem parseEnv_leading (s : String) :
    parseEnv (" " ++ s) = "" :: pySplit ' ' s := by
  have hd : (" " ++ s).data = ' ' :: s.data := by
    rw [String.data_append]; rfl
  have hne : (" " ++ s) ≠ "" := by
    intro h
    have h2 := congrArg String.data h
    rw [hd] at h2
    exact List.cons_ne_nil ' ' s.data h2
  unfold parseEnv pySplit
  rw [if_neg hne, hd, splitCh_cons_sep, List.map_cons]

theorem parseEnv_trailing (s : String) :
    parseEnv (s ++ " ") = pySplit ' ' s ++ [""] := by
  have hd : (s ++ " ").data = s.data ++ [' '] := by
    rw [String.data_append]
  have hne : (s ++ " ") ≠ "" := by
    intro h
    have h2 := congrArg String.data h
    rw [hd] at h2
    rcases List.append_eq_nil.mp h2 with ⟨_, h3⟩
    exact List.cons_ne_nil ' ' [] h3
  unfold parseEnv pySplit
  rw [if_neg hne, hd, splitCh_append_sep, List.map_append]
  rfl

/-! ### The claims -/

/-- C1: For every input string, the action-spec parser of
`do_command_line` computes exactly the spec-level pipeline: split on
`,`, trim surrounding whitespace from each descriptor, split it on
`:`; a 3-field descriptor yields `(tooltip, icon, command)`, a 2-field
descriptor yields `(tooltip, default icon "system-run-symbolic",
command)`, and any other field count or an empty descriptor is
silently discarded, output in descriptor order; the spec's example
string parses to exactly its two ActionSpecs. -/
theorem c1_action_spec_parse :
    (∀ raw : String, parseActions raw = parseActionsSpec raw) ∧
    parseActions "Build:system-run-symbolic:make build,Test:make test" =
      [⟨"Build", "system-run-symbolic", "make build"⟩,
       ⟨"Test", "system-run-symbolic", "make test"⟩] :=
  ⟨parseActions_eq_spec, by decide⟩

/-- C2 counterexample: it is not the case that every ActionSpec in the
parser's output has a non-empty command: parsing "Build:" yields an
ActionSpec whose command is the empty string. -/
theorem c2_empty_command_counterexample :
    ¬ (∀ a ∈ parseActions "Build:", a.command ≠ "") := by decide

/-- C2 amended: the parser keeps every 2- or 3-field descriptor
regardless of whether its command field is empty: "Build:" parses to
an ActionSpec with empty command and the default icon, and "a:b:"
parses to a 3-field ActionSpec with empty command — empty-command
specs are injected into the output, not dropped. -/
theorem c2_empty_command_kept :
    parseActions "Build:" = [⟨"Build", "system-run-symbolic", ""⟩] ∧
    parseActions "a:b:" = [⟨"a", "b", ""⟩] := by decide

/-- C3 counterexample: after the spec's own example sequence — the
title changes to "build.sh", then the child exits with code 0 — the
displayed title is still "build.sh", not the application's fixed name:
`onChildExited` does not unconditionally transition to Default. -/
theorem c3_child_exited_counterexample :
    (onChildExited (onTitleChanged initTitleState "build.sh") 0).displayed =
      "build.sh" ∧ "build.sh" ≠ CONF_NAME := by decide

/-- C3 amended: `onChildExited` runs the same `update_title` handler
as a title change: it ignores the exit code and recomputes the
displayed title from the terminal's currently reported window title —
the reported title verbatim when present and non-empty, and the
application's fixed name exactly when the reported title is absent or
empty.  It resets to Default only in the latter case, not
unconditionally. -/
theorem c3_child_exited_amended (st : TitleState) (code : ℤ) :
    (∀ code2 : ℤ, onChildExited st code = onChildExited st code2) ∧
    (st.windowTitle = none ∨ st.windowTitle = some "" →
      (onChildExited st code).displayed = CONF_NAME) ∧
    (∀ t : String, st.windowTitle = some t → t ≠ "" →
      (onChildExited st code).displayed = t) := by
  refine ⟨fun _ => rfl, ?_, ?_⟩
  · rintro (h | h) <;> simp [onChildExited, update_title, h]
  · intro t ht hne
    simp [onChildExited, update_title, ht, hne]

theorem c3_child_exited_amended_witness :
    (onChildExited ⟨some "build.sh", "build.sh"⟩ 0).displayed = "build.sh" ∧
    (onChildExited ⟨none, CONF_NAME⟩ 0).displayed = CONF_NAME :=
  ⟨(c3_child_exited_amended ⟨some "build.sh", "build.sh"⟩ 0).2.2 "build.sh" rfl
      (by decide),
   (c3_child_exited_amended ⟨none, CONF_NAME⟩ 0).2.1 (Or.inl rfl)⟩

/-- C4: resolving the empty partial configuration (every argument at
its Python default, i.e. no flag supplied) yields exactly the
documented defaults: working directory = the process's startup
directory, command = the default-shell singleton ["/bin/bash"], dark
theme on, actions and environment empty, and the palette unset — the
terminal then uses its built-in default colors. -/
theorem c4_resolve_defaults (startupDir : String) :
    resolve startupDir {} = ⟨startupDir, ["/bin/bash"], [], [], true, []⟩ ∧
    terminalColors ({} : WindowArgs).palette = (CONF_FG, CONF_BG) :=
  ⟨rfl, rfl⟩

/-- C5: if the `--palette` value splits on spaces into fewer than two
tokens the palette is left unset (the empty list); with at least two
tokens the first token is parsed into the color used as foreground and
the second into the color used as background, so "#ffffff #000000"
gives foreground white and background black. -/
theorem c5_palette_parse :
    (∀ s : String, (pySplit ' ' s).length < 2 → parsePaletteOption s = []) ∧
    (∀ (s t0 t1 : String) (rest : List String), pySplit ' ' s = t0 :: t1 :: rest →
      parsePaletteOption s = [gdkParseInto rgbaInit t0, gdkParseInto rgbaInit t1]) ∧
    terminalColors (some (parsePaletteOption "#ffffff #000000")) =
      (⟨1, 1, 1, 1⟩, ⟨0, 0, 0, 1⟩) := by
  refine ⟨?_, ?_, by decide⟩
  · intro s h
    rcases hs : pySplit ' ' s with _ | ⟨t0, _ | ⟨t1, rest⟩⟩
    · simp [parsePaletteOption, hs]
    · simp [parsePaletteOption, hs]
    · rw [hs] at h; simp only [List.length_cons] at h; omega
  · intro s t0 t1 rest h
    simp [parsePaletteOption, h]

theorem c5_palette_parse_witness :
    ((pySplit ' ' "#ffffff").length < 2 ∧ parsePaletteOption "#ffffff" = []) ∧
    (pySplit ' ' "#ffffff #000000" = ["#ffffff", "#000000"] ∧
      parsePaletteOption "#ffffff #000000" =
        [gdkParseInto rgbaInit "#ffffff", gdkParseInto rgbaInit "#000000"]) :=
  ⟨⟨by decide, c5_palette_parse.1 "#ffffff" (by decide)⟩,
   ⟨by decide,
    c5_palette_parse.2.1 "#ffffff #000000" "#ffffff" "#000000" [] (by decide)⟩⟩

/-- C6: the `--env` value is split on plain single spaces with no
quoting mechanism: "A=1 B=2" parses to ["A=1", "B=2"]; joining
space-free tokens with single spaces round-trips through the parser;
and double-quote characters give no protection — the split happens
inside them. -/
theorem c6_env_space_split :
    parseEnv "A=1 B=2" = ["A=1", "B=2"] ∧
    (∀ parts : List String, parts ≠ [] → (∀ p ∈ parts, ' ' ∉ p.data) →
      joinWith ' ' parts ≠ "" → parseEnv (joinWith ' ' parts) = parts) ∧
    parseEnv "A=\x221 B=2\x22" = ["A=\x221", "B=2\x22"] := by
  refine ⟨by decide, ?_, by decide⟩
  intro parts hne hfree hjoin
  unfold parseEnv
  rw [if_neg hjoin]
  unfold pySplit joinWith
  show (splitCh ' ' (joinCh ' ' (parts.map String.data))).map String.mk = parts
  rw [splitCh_joinCh ' ' _ (fun h => hne (List.map_eq_nil_iff.mp h))
      (fun x hx => by
        obtain ⟨p, hp, rfl⟩ := List.mem_map.mp hx
        exact hfree p hp),
    List.map_map, show String.mk ∘ String.data = id from funext fun s => rfl,
    List.map_id]

theorem c6_env_space_split_witness :
    parseEnv (joinWith ' ' ["A=1", "B=2"]) = ["A=1", "B=2"] :=
  c6_env_space_split.2.1 ["A=1", "B=2"] (by decide) (by decide) (by decide)

/-- C7: command-line palette parsing never crashes on an unparsable
color token: for every value it completes with either an unset palette
or exactly two colors; a token rejected by the color grammar leaves
its zero-initialized `Gdk.RGBA()` unchanged (the implementation's
fallback), so "badtoken #000000" yields the zero color as foreground
and black as background. -/
theorem c7_palette_bad_token :
    (∀ s : String, parsePaletteOption s = [] ∨
      ∃ c0 c1, parsePaletteOption s = [c0, c1]) ∧
    (∀ t : String, colorParse t = none → gdkParseInto rgbaInit t = rgbaInit) ∧
    parsePaletteOption "badtoken #000000" = [rgbaInit, ⟨0, 0, 0, 1⟩] ∧
    terminalColors (some (parsePaletteOption "badtoken #000000")) =
      (rgbaInit, ⟨0, 0, 0, 1⟩) := by
  refine ⟨?_, ?_, by decide, by decide⟩
  · intro s
    rcases hs : pySplit ' ' s with _ | ⟨t0, _ | ⟨t1, rest⟩⟩
    · exact Or.inl (by simp [parsePaletteOption, hs])
    · exact Or.inl (by simp [parsePaletteOption, hs])
    · exact Or.inr ⟨gdkParseInto rgbaInit t0, gdkParseInto rgbaInit t1,
        by simp [parsePaletteOption, hs]⟩
  · intro t h
    simp [gdkParseInto, h]

theorem c7_palette_bad_token_witness :
    colorParse "badtoken" = none ∧ gdkParseInto rgbaInit "badtoken" = rgbaInit :=
  ⟨by decide, c7_palette_bad_token.2.1 "badtoken" (by decide)⟩

/-- C8: parsing is idempotent on its structured output: for every
input string, serializing each parsed ActionSpec back to the 3-field
form tooltip:icon:command, joining with ',', and re-parsing yields the
same ActionSpec sequence. -/
theorem c8_parse_serialize_roundtrip (raw : String) :
    parseActions (serializeActions (parseActions raw)) = parseActions raw :=
  parse_serialize_of_good (parseActions raw) (goodSpec_of_mem_parse raw)

/-- C9: the `--env` parse maps the empty value to the empty
environment and any non-empty value to its plain single-space split:
consecutive spaces produce an empty token between them, a leading
space produces a leading empty token, a trailing space a trailing
empty token, and the resulting sequence is handed unchanged to the
spawn call by the window's resolution step. -/
theorem c9_env_exact :
    parseEnv "" = [] ∧
    parseEnv "A=1  B=2" = ["A=1", "", "B=2"] ∧
    (∀ s : String, parseEnv (" " ++ s) = "" :: pySplit ' ' s) ∧
    (∀ s : String, parseEnv (s ++ " ") = pySplit ' ' s ++ [""]) ∧
    (∀ (startupDir : String) (a : WindowArgs) (l : List String),
      (resolve startupDir { a with env := some l }).env = l) :=
  ⟨rfl, by decide, parseEnv_leading, parseEnv_trailing, fun _ _ _ => rfl⟩

/-- C10: at the window-construction interface an explicitly supplied
empty working directory or empty command sequence is treated exactly
like an absent one: cwd = "" resolves to the process's startup
directory, an empty command list resolves to the default shell
["/bin/bash"], and the configuration resolved from `command = some []`
is identical to the one resolved from `command = none`. -/
theorem c10_empty_indistinguishable (startupDir : String) (a : WindowArgs) :
    (a.cwd = "" → (resolve startupDir a).cwd = startupDir) ∧
    (a.command = some [] ∨ a.command = none →
      (resolve startupDir a).command = ["/bin/bash"]) ∧
    resolve startupDir { a with command := some [] } =
      resolve startupDir { a with command := none } := by
  refine ⟨?_, ?_, rfl⟩
  · intro h
    simp [resolve, h]
  · rintro (h | h) <;> simp [resolve, h, CONF_DEF_CMD]

theorem c10_empty_indistinguishable_witness :
    (resolve "/home/user" { cwd := "", command := some [] }).cwd = "/home/user" ∧
    (resolve "/home/user" { cwd := "", command := some [] }).command =
      ["/bin/bash"] :=
  ⟨(c10_empty_indistinguishable "/home/user" { cwd := "", command := some [] }).1
      rfl,
   (c10_empty_indistinguishable "/home/user" { cwd := "", command := some [] }).2.1
      (Or.inl rfl)⟩

end EasyTerm
